import Mathlib

/-!
# Verification of the page-range parsing and page-selection planning core
of a PDF merge/split utility.

The embedding models, from the Python source:
* `parse_page_range` (duplicated in `pdf_merger.py`, `pdf_splitter.py`,
  `pdf_modifier.py`; the merger's copy performs no bounds checking, the
  other two do — modelled by the `checkBounds` flag of the shared core);
* `PDFMerger.merge_pdfs` (planning and progress events; file I/O and the
  actual page-object copying done by the external `pypdf` library are
  abstracted to page counts and (source, page-index) plans);
* `PDFSplitter.split_by_page_count` and `PDFSplitter.split_by_ranges`.
-/

/-- Python whitespace characters recognised by `str.strip()` / `int()`
(ASCII subset; the sources only ever contain ASCII). -/
def isPyWhitespace (c : Char) : Bool :=
  c = ' ' ∨ c = '\t' ∨ c = '\n' ∨ c = '\r' ∨ c = '\x0b' ∨ c = '\x0c'

/-- Python `str.strip()` on a character list: drop whitespace from both ends. -/
def stripChars (l : List Char) : List Char :=
  ((l.dropWhile isPyWhitespace).reverse.dropWhile isPyWhitespace).reverse

/-- Python `str.split(sep)` for a one-character separator: split on every
occurrence, keeping empty pieces; `"".split(c) = [""]`. -/
def splitOnChar (c : Char) : List Char → List (List Char)
  | [] => [[]]
  | x :: xs =>
    let r := splitOnChar c xs
    if x = c then [] :: r
    else
      match r with
      | h :: t => (x :: h) :: t
      | [] => [[x]]

/-- Value of a run of decimal digits. -/
def digitsVal (l : List Char) : Nat :=
  l.foldl (fun a c => a * 10 + (c.toNat - 48)) 0

/-- Tail of a Python integer literal's digit part: after the first digit,
digits may follow, and a single underscore must be followed by a digit. -/
def pyDigitTail : List Char → Bool
  | [] => true
  | c :: rest =>
    if c = '_' then
      match rest with
      | [] => false
      | d :: rest2 => d.isDigit && pyDigitTail rest2
    else c.isDigit && pyDigitTail rest

/-- A Python base-10 digit part: `digit (underscore? digit)*`. -/
def pyDigitPart : List Char → Bool
  | [] => false
  | c :: rest => c.isDigit && pyDigitTail rest

/-- Python `int(s)`: strip whitespace, optional sign, digit part
(underscores between digits allowed); `none` models `ValueError`. -/
def pyInt (l : List Char) : Option Int :=
  let s := stripChars l
  match s with
  | '+' :: rest =>
    if pyDigitPart rest then some (digitsVal (rest.filter (fun c => c != '_'))) else none
  | '-' :: rest =>
    if pyDigitPart rest then some (-(digitsVal (rest.filter (fun c => c != '_')) : Int)) else none
  | _ =>
    if pyDigitPart s then some (digitsVal (s.filter (fun c => c != '_'))) else none

/-- Error raised by the page-range parsers.  In the Python sources both kinds
are the module's single exception class, distinguished by message:
`formatError` is the `"Invalid page range format: {range_str}"` raise from the
`except ValueError` handler, `boundsError` the `"Invalid page range/number"`
raises of the bounds-checking copies. -/
inductive RangeError where
  | formatError (expr : String)
  | boundsError (term : String)
deriving DecidableEq, Repr

/-- Message text carried by a `RangeError` (prefix of the Python message). -/
def RangeError.message : RangeError → String
  | .formatError s => "Invalid page range format: " ++ s
  | .boundsError s => "Invalid page range: " ++ s

/-- Python `range(a, b+1)` over integers, as a list. -/
def intRange (a b : Int) : List Int :=
  (List.range (b + 1 - a).toNat).map (fun i => a + Int.ofNat i)

/-- One term of a page-range expression (one comma-separated piece).
Mirrors the loop body shared by the three `parse_page_range` copies:
strip the part; if it contains a dash, split on every dash and require
exactly two pieces, parse both as Python ints, subtract 1; the
bounds-checking copies (`checkBounds = true`, splitter/modifier) reject
`start < 0 ∨ end ≥ totalPages ∨ start > end`; the merger's copy
(`checkBounds = false`) does not.  A single part is parsed as one int,
decremented, and bounds-checked only when `checkBounds` is set. -/
def processTerm (checkBounds : Bool) (totalPages : Nat) (rangeStr : String)
    (part : List Char) : Except RangeError (List Int) :=
  let p := stripChars part
  if p.contains '-' then
    match splitOnChar '-' p with
    | [a, b] =>
      match pyInt a, pyInt b with
      | some sv, some ev =>
        let start := sv - 1
        let stop := ev - 1
        if checkBounds ∧ (start < 0 ∨ (totalPages : Int) ≤ stop ∨ stop < start) then
          .error (.boundsError (String.mk p))
        else
          .ok (intRange start stop)
      | _, _ => .error (.formatError rangeStr)
    | _ => .error (.formatError rangeStr)
  else
    match pyInt p with
    | some v =>
      let page := v - 1
      if checkBounds ∧ (page < 0 ∨ (totalPages : Int) ≤ page) then
        .error (.boundsError (String.mk p))
      else
        .ok [page]
    | none => .error (.formatError rangeStr)

/-- Process the comma-separated parts in order, stopping at the first error
(the Python loop raises out of the `for`), concatenating page lists. -/
def processParts (checkBounds : Bool) (totalPages : Nat) (rangeStr : String) :
    List (List Char) → Except RangeError (List Int)
  | [] => .ok []
  | part :: rest =>
    match processTerm checkBounds totalPages rangeStr part with
    | .error e => .error e
    | .ok pages =>
      match processParts checkBounds totalPages rangeStr rest with
      | .error e => .error e
      | .ok more => .ok (pages ++ more)

/-- Python `sorted(list(set(pages)))`: the distinct elements in ascending
order. -/
def dedupSort (l : List Int) : List Int :=
  List.insertionSort (· ≤ ·) l.dedup

/-- Shared body of the three `parse_page_range` copies.
`if not range_str or range_str.strip().lower() == "all": return
list(range(total_pages))`, else split on commas, process each part,
deduplicate and sort. -/
def parsePageRangeCore (checkBounds : Bool) (rangeStr : String) (totalPages : Nat) :
    Except RangeError (List Int) :=
  if rangeStr = "" ∨ (stripChars rangeStr.data).map Char.toLower = ['a', 'l', 'l'] then
    .ok ((List.range totalPages).map Int.ofNat)
  else
    match processParts checkBounds totalPages rangeStr (splitOnChar ',' rangeStr.data) with
    | .error e => .error e
    | .ok pages => .ok (dedupSort pages)

namespace PDFMerger

/-- Model of `PDFMerger.parse_page_range` (src/pdf_merger.py, lines 64–94): the copy
with no bounds validation. -/
def parse_page_range (rangeStr : String) (totalPages : Nat) :
    Except RangeError (List Int) :=
  parsePageRangeCore false rangeStr totalPages

end PDFMerger

namespace PDFSplitter

/-- Model of `PDFSplitter.parse_page_range` (src/pdf_splitter.py, lines 35–86): the
copy that validates bounds. -/
def parse_page_range (rangeStr : String) (totalPages : Nat) :
    Except RangeError (List Int) :=
  parsePageRangeCore true rangeStr totalPages

end PDFSplitter

namespace PDFModifier

/-- Model of `PDFModifier.parse_page_range` (src/pdf_modifier.py, lines 38–82):
identical to the splitter's copy, bounds validated. -/
def parse_page_range (rangeStr : String) (totalPages : Nat) :
    Except RangeError (List Int) :=
  parsePageRangeCore true rangeStr totalPages

end PDFModifier

deriving instance DecidableEq for Except

/-- A progress callback invocation `(current, total, message)`. -/
structure ProgressEvent where
  current : Nat
  total : Nat
  message : String
deriving DecidableEq, Repr

/-- One merge input as the planning core sees it: file name, page count
(obtained from the external PDF library) and the optional page-range string
from the `page_ranges` dict (`none` when the file has no entry). -/
structure MergeSource where
  name : String
  numPages : Nat
  rangeExpr : Option String
deriving DecidableEq, Repr

/-- Errors of `PDFMerger.merge_pdfs` (all `PDFMergerError` in Python,
distinguished by raise site / message). -/
inductive MergeError where
  | noInputFiles
  | insufficientSources
  | emptyPdf (name : String)
  | mergeFailed (msg : String)
deriving DecidableEq, Repr

/-- Python list indexing `reader.pages[p]` on a document of `numPages`
pages: a negative index wraps once; out of range raises (`none`). -/
def pyIndex (numPages : Nat) (p : Int) : Option Nat :=
  let q := if p < 0 then p + numPages else p
  if 0 ≤ q ∧ q < (numPages : Int) then some q.toNat else none

/-- Resolve a merge source's pages: `parse_page_range` when the
`page_ranges` dict has an entry for the file, else `list(range(num_pages))`. -/
def resolvePages (src : MergeSource) : Except RangeError (List Int) :=
  match src.rangeExpr with
  | some e => PDFMerger.parse_page_range e src.numPages
  | none => .ok ((List.range src.numPages).map Int.ofNat)

/-- Look up every requested page index in the source document in order
(`self.writer.add_page(reader.pages[page_num])`); `none` models the
`IndexError` escaping to the wrapping handler. -/
def addPages (numPages : Nat) : List Int → Option (List Nat)
  | [] => some []
  | p :: rest =>
    match pyIndex numPages p, addPages numPages rest with
    | some q, some qs => some (q :: qs)
    | _, _ => none

/-- The validation loop of `merge_pdfs` (lines 119–121): `validate_pdf`
rejects a document with zero pages (`"PDF file is empty"`); file-existence
and extension checks concern the file system and are abstracted away.  After
each successful validation the `(i+1, n, "Validated: …")` event is emitted. -/
def validateLoop (n : Nat) : List MergeSource → Nat → List ProgressEvent × Except MergeError Unit
  | [], _ => ([], .ok ())
  | src :: rest, i =>
    if src.numPages = 0 then ([], .error (.emptyPdf src.name))
    else
      let r := validateLoop n rest (i + 1)
      (⟨i + 1, n, "Validated: " ++ src.name⟩ :: r.1, r.2)

/-- The merge loop of `merge_pdfs` (lines 131–150): per source, resolve its
pages, copy each into the writer, then emit the `(i+1, n, "Added …")` event.
Any exception (a parse error or an `IndexError` from an unchecked
out-of-range index) is wrapped as `"Failed to merge PDFs: …"`.
Returns the events emitted, and on success the `(name, page)` plan pairs
together with the running page total. -/
def mergeLoop (n : Nat) : List MergeSource → Nat → Nat →
    List ProgressEvent × Except MergeError (List (String × Nat) × Nat)
  | [], _, total => ([], .ok ([], total))
  | src :: rest, i, total =>
    match resolvePages src with
    | .error e => ([], .error (.mergeFailed ("Failed to merge PDFs: " ++ e.message)))
    | .ok pages =>
      match addPages src.numPages pages with
      | none => ([], .error (.mergeFailed "Failed to merge PDFs: sequence index out of range"))
      | some qs =>
        let r := mergeLoop n rest (i + 1) (total + pages.length)
        (⟨i + 1, n, "Added " ++ toString pages.length ++ " pages from " ++ src.name⟩ :: r.1,
         match r.2 with
         | .ok pr => .ok (qs.map (fun q => (src.name, q)) ++ pr.1, pr.2)
         | .error e => .error e)

namespace PDFMerger

/-- Model of `PDFMerger.merge_pdfs` (src/pdf_merger.py, lines 96–172), abstracted to
planning: returns the progress events emitted and, on success, the ordered
`(source name, zero-based page index)` output plan.  Writing the output file
and directory creation are file-system effects outside the model. -/
def merge_pdfs (sources : List MergeSource) :
    List ProgressEvent × Except MergeError (List (String × Nat)) :=
  if sources.length = 0 then ([], .error .noInputFiles)
  else if sources.length < 2 then ([], .error .insufficientSources)
  else
    let n := sources.length
    let v := validateLoop n sources 0
    let evs0 := ⟨0, n, "Validating PDF files..."⟩ :: v.1
    match v.2 with
    | .error e => (evs0, .error e)
    | .ok _ =>
      let m := mergeLoop n sources 0 0
      let evs1 := evs0 ++ ⟨0, n, "Merging PDF files..."⟩ :: m.1
      match m.2 with
      | .error e => (evs1, .error e)
      | .ok pr =>
        (evs1 ++ [⟨n, n, "Writing merged PDF..."⟩,
          ⟨n, n, "Successfully merged " ++ toString n ++ " files (" ++
            toString pr.2 ++ " pages)"⟩],
         .ok pr.1)

end PDFMerger

/-- Errors of the splitter's operations (all `PDFSplitterError` in Python,
distinguished by raise site / message).  `wrapped` models the
`except Exception` handler re-raising as `"Failed to split PDF: …"`. -/
inductive SplitterError where
  | invalidChunkSize
  | emptyRangeList
  | wrapped (e : RangeError)
deriving DecidableEq, Repr

/-- Python `range(a, b)` over naturals, as a list (`a, a+1, …, b-1`). -/
def rangeFromTo (a b : Nat) : List Nat :=
  (List.range (b - a)).map (fun i => a + i)

namespace PDFSplitter

/-- Model of `PDFSplitter.split_by_page_count` (src/pdf_splitter.py, lines 143–214),
abstracted to planning over the page count: one plan of consecutive indices
per output file, plus the progress events.  File-system effects (existence
check, directory creation, writing) are outside the model. -/
def split_by_page_count (name : String) (totalPages pagesPerFile : Nat) :
    List ProgressEvent × Except SplitterError (List (List Nat)) :=
  if pagesPerFile < 1 then ([], .error .invalidChunkSize)
  else
    let numFiles := (totalPages + pagesPerFile - 1) / pagesPerFile
    let plans := (List.range numFiles).map
      (fun f => rangeFromTo (f * pagesPerFile) (min (f * pagesPerFile + pagesPerFile) totalPages))
    let events := ⟨0, numFiles, "Splitting PDF..."⟩ ::
      ((List.range numFiles).map
        (fun f => ⟨f + 1, numFiles,
          "Created " ++ name ++ "_part" ++ toString (f + 1) ++ ".pdf"⟩)) ++
      [⟨numFiles, numFiles, "Successfully split into " ++ toString numFiles ++ " files"⟩]
    (events, .ok plans)

end PDFSplitter

/-- The loop of `split_by_ranges` (lines 250–276): per expression, parse it
against the full document; an empty resolved list is skipped (`continue`,
before any event for that entry); otherwise the plan is kept and the
`(i+1, n, "Created file for pages …")` event emitted.  A parse error escapes
to the `except Exception` handler (`wrapped`). -/
def splitByRangesLoop (totalPages n : Nat) :
    List String → Nat → List ProgressEvent × Except SplitterError (List (List Int))
  | [], _ => ([], .ok [])
  | r :: rest, i =>
    match PDFSplitter.parse_page_range r totalPages with
    | .error e => ([], .error (.wrapped e))
    | .ok pages =>
      if pages.isEmpty then splitByRangesLoop totalPages n rest (i + 1)
      else
        let res := splitByRangesLoop totalPages n rest (i + 1)
        (⟨i + 1, n, "Created file for pages " ++ r⟩ :: res.1,
         match res.2 with
         | .ok plans => .ok (pages :: plans)
         | .error e => .error e)

namespace PDFSplitter

/-- Model of `PDFSplitter.split_by_ranges` (src/pdf_splitter.py, lines 216–287),
abstracted to planning: rejects an empty range list up front, then one plan
per expression whose resolved page list is non-empty.  File-system effects
are outside the model. -/
def split_by_ranges (totalPages : Nat) (ranges : List String) :
    List ProgressEvent × Except SplitterError (List (List Int)) :=
  if ranges.isEmpty then ([], .error .emptyRangeList)
  else
    let n := ranges.length
    let r := splitByRangesLoop totalPages n ranges 0
    let evs := ⟨0, n, "Splitting PDF by ranges..."⟩ :: r.1
    match r.2 with
    | .error e => (evs, .error e)
    | .ok plans =>
      (evs ++ [⟨n, n, "Successfully created " ++ toString plans.length ++ " files"⟩],
       .ok plans)

end PDFSplitter

/-- Parse every expression of a list against the same page count, stopping
at the first error (helper used to state hypotheses about `split_by_ranges`). -/
def parseAllRanges (totalPages : Nat) : List String → Except RangeError (List (List Int))
  | [] => .ok []
  | r :: rest =>
    match PDFSplitter.parse_page_range r totalPages with
    | .error e => .error e
    | .ok p =>
      match parseAllRanges totalPages rest with
      | .error e => .error e
      | .ok ps => .ok (p :: ps)

/-! ## Supporting lemmas -/

theorem dedupSort_sorted (l : List Int) : (dedupSort l).Sorted (· < ·) := by
  have hs : (dedupSort l).Sorted (· ≤ ·) := List.sorted_insertionSort _ _
  have hn : (dedupSort l).Nodup :=
    (List.perm_insertionSort _ _).nodup_iff.mpr (List.nodup_dedup l)
  exact hs.lt_of_le hn

theorem mem_dedupSort {x : Int} {l : List Int} : x ∈ dedupSort l ↔ x ∈ l := by
  unfold dedupSort
  rw [(List.perm_insertionSort _ _).mem_iff, List.mem_dedup]

theorem mem_intRange {x a b : Int} (h : x ∈ intRange a b) : a ≤ x ∧ x ≤ b := by
  unfold intRange at h
  obtain ⟨i, hi, rfl⟩ := List.mem_map.mp h
  have h2 := List.mem_range.mp hi
  have h3 : Int.ofNat i = (i : Int) := rfl
  rw [h3]
  omega

/-- In the bounds-checking parsers, any page list a term successfully
contributes lies inside `[0, totalPages)`. -/
theorem processTerm_true_ok_bounds {t : Nat} {rs : String} {part : List Char}
    {l : List Int} (h : processTerm true t rs part = .ok l) :
    ∀ x ∈ l, 0 ≤ x ∧ x < (t : Int) := by
  unfold processTerm at h
  dsimp only at h
  split at h
  · split at h
    · split at h
      · split at h
        · exact absurd h (by simp)
        · rename_i hcond
          simp only [Except.ok.injEq] at h
          subst h
          intro x hx
          have := mem_intRange hx
          simp only [true_and, not_or, not_lt] at hcond
          omega
      · exact absurd h (by simp)
    · exact absurd h (by simp)
  · split at h
    · split at h
      · exact absurd h (by simp)
      · rename_i hcond
        simp only [Except.ok.injEq] at h
        subst h
        intro x hx
        simp only [List.mem_singleton] at hx
        subst hx
        simp only [true_and, not_or, not_lt] at hcond
        omega
    · exact absurd h (by simp)

theorem processParts_true_ok_bounds {t : Nat} {rs : String}
    {parts : List (List Char)} {l : List Int}
    (h : processParts true t rs parts = .ok l) :
    ∀ x ∈ l, 0 ≤ x ∧ x < (t : Int) := by
  induction parts generalizing l with
  | nil =>
    simp only [processParts, Except.ok.injEq] at h
    subst h
    simp
  | cons p ps ih =>
    simp only [processParts] at h
    cases hp : processTerm true t rs p with
    | error e => rw [hp] at h; exact absurd h (by simp)
    | ok pages =>
      rw [hp] at h
      cases hq : processParts true t rs ps with
      | error e => rw [hq] at h; exact absurd h (by simp)
      | ok more =>
        rw [hq] at h
        simp only [Except.ok.injEq] at h
        subst h
        intro x hx
        rcases List.mem_append.mp hx with hx | hx
        · exact processTerm_true_ok_bounds hp x hx
        · exact ih hq x hx

/-- Every element of the full-range result `[0, …, totalPages-1]` is in
bounds. -/
theorem mem_fullRange {t : Nat} {x : Int}
    (hx : x ∈ (List.range t).map Int.ofNat) : 0 ≤ x ∧ x < (t : Int) := by
  obtain ⟨i, hi, rfl⟩ := List.mem_map.mp hx
  have h2 := List.mem_range.mp hi
  have h3 : Int.ofNat i = (i : Int) := rfl
  rw [h3]
  omega

/-- Successful results of the bounds-checking parser copies contain only
indices inside `[0, totalPages)`. -/
theorem parse_core_true_ok_bounds {s : String} {t : Nat} {l : List Int}
    (h : parsePageRangeCore true s t = .ok l) :
    ∀ x ∈ l, 0 ≤ x ∧ x < (t : Int) := by
  unfold parsePageRangeCore at h
  split at h
  · simp only [Except.ok.injEq] at h
    subst h
    exact fun x hx => mem_fullRange hx
  · cases hp : processParts true t s (splitOnChar ',' s.data) with
    | error e => rw [hp] at h; exact absurd h (by simp)
    | ok pages =>
      rw [hp] at h
      simp only [Except.ok.injEq] at h
      subst h
      intro x hx
      exact processParts_true_ok_bounds hp x (mem_dedupSort.mp hx)

/-- Every successful parse result, for any of the three copies, is strictly
ascending (hence duplicate-free). -/
theorem parse_core_ok_sorted {b : Bool} {s : String} {t : Nat} {l : List Int}
    (h : parsePageRangeCore b s t = .ok l) : l.Sorted (· < ·) := by
  unfold parsePageRangeCore at h
  split at h
  · simp only [Except.ok.injEq] at h
    subst h
    exact List.Pairwise.map Int.ofNat (fun a b hab => Int.ofNat_lt.mpr hab)
      (List.sorted_lt_range t)
  · cases hp : processParts b t s (splitOnChar ',' s.data) with
    | error e => rw [hp] at h; exact absurd h (by simp)
    | ok pages =>
      rw [hp] at h
      simp only [Except.ok.injEq] at h
      subst h
      exact dedupSort_sorted pages

/-- A syntactically malformed term: not a single integer and not a
dash-separated pair of integers (after stripping).  Mirrors the claim's "not
an integer or not of the two recognized shapes". -/
def termMalformed (part : List Char) : Bool :=
  let p := stripChars part
  if p.contains '-' then
    match splitOnChar '-' p with
    | [a, b] => (pyInt a).isNone || (pyInt b).isNone
    | _ => true
  else (pyInt p).isNone

/-- A malformed term fails with the format error in every copy, bounds
checking or not. -/
theorem processTerm_of_malformed {part : List Char} (hm : termMalformed part = true)
    (b : Bool) (t : Nat) (rs : String) :
    processTerm b t rs part = .error (.formatError rs) := by
  unfold termMalformed at hm
  unfold processTerm
  dsimp only at hm ⊢
  by_cases hc : (stripChars part).contains '-'
  · rw [if_pos hc] at hm ⊢
    rcases hsp : splitOnChar '-' (stripChars part) with _ | ⟨a, _ | ⟨c, _ | ⟨d, rest⟩⟩⟩
    · rfl
    · rfl
    · dsimp only
      rcases hpa : pyInt a with _ | sv
      · rfl
      · rcases hpc : pyInt c with _ | ev
        · rfl
        · rw [hsp] at hm
          dsimp only at hm
          rw [hpa, hpc] at hm
          simp at hm
    · rfl
  · rw [if_neg hc] at hm ⊢
    rcases hpp : pyInt (stripChars part) with _ | v
    · rfl
    · rw [hpp] at hm
      simp at hm

/-- With bounds checking off (the merger's copy) every term failure is the
format error naming the whole expression. -/
theorem processTerm_false_error_kind {t : Nat} {rs : String} {part : List Char}
    {e : RangeError} (h : processTerm false t rs part = .error e) :
    e = .formatError rs := by
  unfold processTerm at h
  dsimp only at h
  split at h
  · split at h
    · split at h
      · split at h
        · rename_i hcond
          exact absurd hcond (by simp)
        · exact absurd h (by simp)
      · simp only [Except.error.injEq] at h
        exact h.symm
    · simp only [Except.error.injEq] at h
      exact h.symm
  · split at h
    · split at h
      · rename_i hcond
        exact absurd hcond (by simp)
      · exact absurd h (by simp)
    · simp only [Except.error.injEq] at h
      exact h.symm

/-- The bounds-checking copy of the term processor either raises a bounds
error or behaves exactly like the non-checking copy. -/
theorem processTerm_true_cases (t : Nat) (rs : String) (part : List Char) :
    (∃ m, processTerm true t rs part = .error (.boundsError m)) ∨
      processTerm true t rs part = processTerm false t rs part := by
  unfold processTerm
  dsimp only
  split
  · split
    · split
      · split
        · exact Or.inl ⟨_, rfl⟩
        · right
          rw [if_neg (by simp)]
      · right; rfl
    · right; rfl
  · split
    · split
      · exact Or.inl ⟨_, rfl⟩
      · right
        rw [if_neg (by simp)]
    · right; rfl

/-- A term failure anywhere in the list makes the whole part-processing
loop fail (with the first error raised). -/
theorem processParts_error_of_mem {b : Bool} {t : Nat} {rs : String}
    {parts : List (List Char)} {part : List Char} {e : RangeError}
    (hmem : part ∈ parts) (hpt : processTerm b t rs part = .error e) :
    ∃ e2, processParts b t rs parts = .error e2 := by
  induction parts with
  | nil => cases hmem
  | cons p ps ih =>
    simp only [processParts]
    cases hp : processTerm b t rs p with
    | error e3 => exact ⟨e3, rfl⟩
    | ok pages =>
      rcases List.mem_cons.mp hmem with rfl | hmem2
      · rw [hp] at hpt
        cases hpt
      · obtain ⟨e2, h2⟩ := ih hmem2
        rw [h2]
        exact ⟨e2, rfl⟩

/-- With bounds checking off, every part-processing failure is the format
error. -/
theorem processParts_false_error_kind {t : Nat} {rs : String}
    {parts : List (List Char)} {e : RangeError}
    (h : processParts false t rs parts = .error e) : e = .formatError rs := by
  induction parts generalizing e with
  | nil => exact absurd h (by simp [processParts])
  | cons p ps ih =>
    simp only [processParts] at h
    cases hp : processTerm false t rs p with
    | error e3 =>
      rw [hp] at h
      simp only [Except.error.injEq] at h
      subst h
      exact processTerm_false_error_kind hp
    | ok pages =>
      rw [hp] at h
      cases hq : processParts false t rs ps with
      | error e4 =>
        rw [hq] at h
        simp only [Except.error.injEq] at h
        subst h
        exact ih hq
      | ok more =>
        rw [hq] at h
        cases h

/-- Every failure of the merger's parser copy is the format error naming
the whole expression. -/
theorem merger_parse_error_kind {s : String} {t : Nat} {e : RangeError}
    (h : PDFMerger.parse_page_range s t = .error e) : e = .formatError s := by
  unfold PDFMerger.parse_page_range parsePageRangeCore at h
  split at h
  · cases h
  · cases hp : processParts false t s (splitOnChar ',' s.data) with
    | error e2 =>
      rw [hp] at h
      simp only [Except.error.injEq] at h
      subst h
      exact processParts_false_error_kind hp
    | ok pages =>
      rw [hp] at h
      cases h

/-! ## Claims about the page-range parsers (C1, C3, C7, C8) -/

/-- C3 counterexample: the whitespace expression `" "` is empty after
trimming, yet every copy fails with the format error (the code tests
`not range_str`, which is only true for the empty string, before trimming). -/
theorem claim_C3_counterexample :
    PDFMerger.parse_page_range " " 3 = .error (.formatError " ") ∧
    PDFSplitter.parse_page_range " " 3 = .error (.formatError " ") ∧
    PDFModifier.parse_page_range " " 3 = .error (.formatError " ") :=
  ⟨rfl, rfl, rfl⟩

/-- C3 (amended): for every copy and every `totalPages`, parsing the empty
string, or an expression whose trimmed form is case-insensitively `all`,
returns exactly `[0, 1, …, totalPages-1]` with no error. -/
theorem claim_C3_empty_or_all (b : Bool) (s : String) (t : Nat)
    (h : s = "" ∨ (stripChars s.data).map Char.toLower = ['a', 'l', 'l']) :
    parsePageRangeCore b s t = .ok ((List.range t).map Int.ofNat) := by
  unfold parsePageRangeCore
  rw [if_pos h]

theorem claim_C3_witness :
    ((" ALL " : String) = "" ∨
      (stripChars (" ALL " : String).data).map Char.toLower = ['a', 'l', 'l']) ∧
    parsePageRangeCore true " ALL " 3 = .ok ((List.range 3).map Int.ofNat) :=
  ⟨Or.inr (by decide), claim_C3_empty_or_all true " ALL " 3 (Or.inr (by decide))⟩

/-- C7: every successfully parsed page-index list, for any of the three
copies, is strictly ascending and duplicate-free. -/
theorem claim_C7_sorted_nodup (s : String) (t : Nat) (l : List Int)
    (h : PDFMerger.parse_page_range s t = .ok l ∨
      PDFSplitter.parse_page_range s t = .ok l ∨
      PDFModifier.parse_page_range s t = .ok l) :
    l.Sorted (· < ·) ∧ l.Nodup := by
  have hs : l.Sorted (· < ·) := by
    rcases h with h | h | h
    · exact parse_core_ok_sorted h
    · exact parse_core_ok_sorted h
    · exact parse_core_ok_sorted h
  exact ⟨hs, hs.nodup⟩

theorem claim_C7_witness :
    PDFSplitter.parse_page_range "1-2,4,2-3" 5 = .ok [0, 1, 2, 3] ∧
    ([0, 1, 2, 3] : List Int).Sorted (· < ·) ∧ ([0, 1, 2, 3] : List Int).Nodup :=
  ⟨rfl,
   (claim_C7_sorted_nodup "1-2,4,2-3" 5 [0, 1, 2, 3] (Or.inr (Or.inl rfl))).1,
   (claim_C7_sorted_nodup "1-2,4,2-3" 5 [0, 1, 2, 3] (Or.inr (Or.inl rfl))).2⟩

/-- C1 counterexample: the merger's copy performs no bounds validation:
`"0-3"` over 5 pages succeeds, even yielding the out-of-range index `-1`
(1-based page 0 < 1), contradicting "no out-of-range term ever yields a
successful result" for the quantification over all three parse sites. -/
theorem claim_C1_counterexample :
    PDFMerger.parse_page_range "0-3" 5 = .ok [-1, 0, 1, 2] := rfl

/-- C1 (amended, restricted to the bounds-checking copies): in the
splitter's and the modifier's `parse_page_range` a successful result
contains only indices inside `[0, totalPages)`; a dash pair whose two
endpoints parse as integers but violate `1 ≤ start ≤ end ≤ totalPages`
fails with the bounds error at that term, and so does a single number
outside `[1, totalPages]`.  (The merger's copy checks no bounds.) -/
theorem claim_C1_bounds_checking :
    (∀ (s : String) (t : Nat) (l : List Int),
      PDFSplitter.parse_page_range s t = .ok l → ∀ x ∈ l, 0 ≤ x ∧ x < (t : Int)) ∧
    (∀ (s : String) (t : Nat) (l : List Int),
      PDFModifier.parse_page_range s t = .ok l → ∀ x ∈ l, 0 ≤ x ∧ x < (t : Int)) ∧
    (∀ (t : Nat) (rs : String) (part a c : List Char) (sv ev : Int),
      (stripChars part).contains '-' = true →
      splitOnChar '-' (stripChars part) = [a, c] →
      pyInt a = some sv → pyInt c = some ev →
      (sv - 1 < 0 ∨ (t : Int) ≤ ev - 1 ∨ ev - 1 < sv - 1) →
      processTerm true t rs part = .error (.boundsError (String.mk (stripChars part)))) ∧
    (∀ (t : Nat) (rs : String) (part : List Char) (v : Int),
      (stripChars part).contains '-' = false →
      pyInt (stripChars part) = some v →
      (v - 1 < 0 ∨ (t : Int) ≤ v - 1) →
      processTerm true t rs part = .error (.boundsError (String.mk (stripChars part)))) := by
  refine ⟨fun s t l h => parse_core_true_ok_bounds h,
    fun s t l h => parse_core_true_ok_bounds h, ?_, ?_⟩
  · intro t rs part a c sv ev hc hsp hpa hpc hcond
    unfold processTerm
    dsimp only
    rw [if_pos hc, hsp]
    dsimp only
    rw [hpa, hpc]
    dsimp only
    rw [if_pos ⟨rfl, hcond⟩]
  · intro t rs part v hc hpp hcond
    unfold processTerm
    dsimp only
    rw [if_neg (by rw [hc]; simp), hpp]
    dsimp only
    rw [if_pos ⟨rfl, hcond⟩]

theorem claim_C1_witness :
    (0 ≤ (1 : Int) ∧ (1 : Int) < (5 : Nat)) ∧
    processTerm true 5 "0-3" ("0-3" : String).data = .error (.boundsError "0-3") ∧
    processTerm true 5 "99" ("99" : String).data = .error (.boundsError "99") :=
  ⟨claim_C1_bounds_checking.1 "2-4" 5 [1, 2, 3] rfl 1 (by decide),
   claim_C1_bounds_checking.2.2.1 5 "0-3" ("0-3" : String).data
     ("0" : String).data ("3" : String).data 0 3 rfl rfl rfl rfl (by decide),
   claim_C1_bounds_checking.2.2.2 5 "99" ("99" : String).data 99 rfl rfl (by decide)⟩

/-- C8 counterexample: over 5 pages the expression `"99,x"` contains the
malformed term `"x"`, yet the splitter's copy fails with the bounds error
for the earlier out-of-range term `"99"`, not with the format error. -/
theorem claim_C8_counterexample :
    termMalformed ("x" : String).data = true ∧
    ("x" : String).data ∈ splitOnChar ',' ("99,x" : String).data ∧
    PDFSplitter.parse_page_range "99,x" 5 = .error (.boundsError "99") :=
  ⟨rfl, by decide, rfl⟩

/-- C8 (amended): an expression (other than the empty/`all` forms)
containing a malformed term never parses successfully: the merger's copy
always fails with the format error naming the expression (indeed every
failure of the merger's copy is such a format error); the bounds-checking
copies also fail, though possibly with a bounds error when an earlier
out-of-range term is hit first. -/
theorem claim_C8_malformed_terms :
    (∀ (s : String) (t : Nat) (e : RangeError),
      PDFMerger.parse_page_range s t = .error e → e = .formatError s) ∧
    (∀ (s : String) (t : Nat) (part : List Char),
      ¬(s = "" ∨ (stripChars s.data).map Char.toLower = ['a', 'l', 'l']) →
      part ∈ splitOnChar ',' s.data → termMalformed part = true →
      PDFMerger.parse_page_range s t = .error (.formatError s)) ∧
    (∀ (s : String) (t : Nat) (part : List Char),
      ¬(s = "" ∨ (stripChars s.data).map Char.toLower = ['a', 'l', 'l']) →
      part ∈ splitOnChar ',' s.data → termMalformed part = true →
      ∃ e, PDFSplitter.parse_page_range s t = .error e ∧
        PDFModifier.parse_page_range s t = .error e) := by
  refine ⟨fun s t e h => merger_parse_error_kind h, ?_, ?_⟩
  · intro s t part hguard hmem hm
    have hterm := processTerm_of_malformed hm false t s
    obtain ⟨e2, h2⟩ := processParts_error_of_mem hmem hterm
    have he2 : e2 = .formatError s := processParts_false_error_kind h2
    subst he2
    unfold PDFMerger.parse_page_range parsePageRangeCore
    rw [if_neg hguard, h2]
  · intro s t part hguard hmem hm
    have hterm := processTerm_of_malformed hm true t s
    obtain ⟨e2, h2⟩ := processParts_error_of_mem hmem hterm
    refine ⟨e2, ?_, ?_⟩
    · unfold PDFSplitter.parse_page_range parsePageRangeCore
      rw [if_neg hguard, h2]
    · unfold PDFModifier.parse_page_range parsePageRangeCore
      rw [if_neg hguard, h2]

theorem claim_C8_witness :
    PDFMerger.parse_page_range "1-2-3" 5 = .error (.formatError "1-2-3") ∧
    (∃ e, PDFSplitter.parse_page_range "x-2" 5 = .error e ∧
      PDFModifier.parse_page_range "x-2" 5 = .error e) :=
  ⟨claim_C8_malformed_terms.2.1 "1-2-3" 5 ("1-2-3" : String).data
     (by decide) (by decide) rfl,
   claim_C8_malformed_terms.2.2 "x-2" 5 ("x-2" : String).data
     (by decide) (by decide) rfl⟩

/-! ## Claims about merging and splitting (C5, C6, C9, C10) -/

/-- C9: merging fewer than 2 sources fails up front (the empty list at the
`"No input files provided"` raise, a single source at the `"At least 2 PDF
files are required"` raise — both the module's single exception class),
with no progress event emitted and no page planning performed. -/
theorem claim_C9_insufficient_sources (sources : List MergeSource)
    (h : sources.length < 2) :
    PDFMerger.merge_pdfs sources =
      ([], .error (if sources.length = 0 then .noInputFiles else .insufficientSources)) := by
  rcases sources with _ | ⟨a, _ | ⟨b, rest⟩⟩
  · rfl
  · rfl
  · simp only [List.length_cons] at h
    omega

theorem claim_C9_witness :
    PDFMerger.merge_pdfs [] = ([], .error .noInputFiles) ∧
    PDFMerger.merge_pdfs [⟨"a.pdf", 3, none⟩] = ([], .error .insufficientSources) :=
  ⟨claim_C9_insufficient_sources [] (by decide),
   claim_C9_insufficient_sources [⟨"a.pdf", 3, none⟩] (by decide)⟩

/-- C10: `split_by_ranges` resolves every expression against the full
document and enforces no disjointness: over a 10-page source the
expressions `"1-5"` and `"3-7"` both produce a plan, and page index 2 (also
3 and 4) appears in both plans, so the split is not a partition. -/
theorem claim_C10_overlapping_plans :
    (PDFSplitter.split_by_ranges 10 ["1-5", "3-7"]).2 =
      .ok [[0, 1, 2, 3, 4], [2, 3, 4, 5, 6]] ∧
    (2 : Int) ∈ [0, 1, 2, 3, 4] ∧ (2 : Int) ∈ [2, 3, 4, 5, 6] :=
  ⟨rfl, by decide, by decide⟩

/-- C5: with `pagesPerFile ≥ 1`, split-by-count plans exactly
`⌈totalPages / pagesPerFile⌉` output files, the `f`-th holding the
consecutive indices `[f*pagesPerFile, min((f+1)*pagesPerFile, totalPages))`
in ascending order. -/
theorem claim_C5_split_by_count (name : String) (N ppf : Nat) (h : 1 ≤ ppf) :
    ∃ plans, (PDFSplitter.split_by_page_count name N ppf).2 = .ok plans ∧
      plans.length = N ⌈/⌉ ppf ∧
      ∀ f, f < plans.length →
        plans[f]? = some (rangeFromTo (f * ppf) (min ((f + 1) * ppf) N)) := by
  unfold PDFSplitter.split_by_page_count
  rw [if_neg (by omega)]
  dsimp only
  refine ⟨_, rfl, ?_, ?_⟩
  · rw [List.length_map, List.length_range, Nat.ceilDiv_eq_add_pred_div]
  · intro f hf
    rw [List.length_map, List.length_range] at hf
    rw [List.getElem?_map, List.getElem?_range hf]
    have harith : f * ppf + ppf = (f + 1) * ppf := by ring
    simp only [Option.map_some', harith]

theorem claim_C5_witness :
    (1 : Nat) ≤ 3 ∧
    ∃ plans, (PDFSplitter.split_by_page_count "doc" 7 3).2 = .ok plans ∧
      plans.length = 7 ⌈/⌉ 3 ∧
      ∀ f, f < plans.length →
        plans[f]? = some (rangeFromTo (f * 3) (min ((f + 1) * 3) 7)) :=
  ⟨by decide, claim_C5_split_by_count "doc" 7 3 (by decide)⟩

/-- When every expression parses, the split-by-ranges loop keeps exactly
the non-empty resolved lists, in order. -/
theorem splitByRangesLoop_ok {totalPages : Nat} {ranges : List String}
    {rss : List (List Int)} (h : parseAllRanges totalPages ranges = .ok rss)
    (n i : Nat) :
    (splitByRangesLoop totalPages n ranges i).2 =
      .ok (rss.filter (fun l => !l.isEmpty)) := by
  induction ranges generalizing rss i with
  | nil =>
    simp only [parseAllRanges, Except.ok.injEq] at h
    subst h
    rfl
  | cons r rest ih =>
    simp only [parseAllRanges] at h
    cases hp : PDFSplitter.parse_page_range r totalPages with
    | error e => rw [hp] at h; cases h
    | ok pages =>
      rw [hp] at h
      cases hq : parseAllRanges totalPages rest with
      | error e => rw [hq] at h; cases h
      | ok ps =>
        rw [hq] at h
        simp only [Except.ok.injEq] at h
        subst h
        simp only [splitByRangesLoop, hp]
        by_cases he : pages.isEmpty
        · rw [if_pos he]
          rw [ih hq]
          simp [List.filter_cons, he]
        · rw [if_neg he]
          dsimp only
          rw [ih hq]
          simp [List.filter_cons, he]

/-- C6: split-by-ranges rejects an empty expression list with the
`"No page ranges provided"` raise; otherwise, when every expression
parses, it produces exactly one plan per expression whose resolved page
list is non-empty, silently skipping empty resolutions, in order. -/
theorem claim_C6_split_by_ranges :
    (∀ totalPages : Nat,
      PDFSplitter.split_by_ranges totalPages [] = ([], .error .emptyRangeList)) ∧
    (∀ (totalPages : Nat) (ranges : List String) (rss : List (List Int)),
      ranges ≠ [] → parseAllRanges totalPages ranges = .ok rss →
      (PDFSplitter.split_by_ranges totalPages ranges).2 =
        .ok (rss.filter (fun l => !l.isEmpty))) := by
  constructor
  · intro t
    rfl
  · intro t ranges rss hne hp
    unfold PDFSplitter.split_by_ranges
    rw [if_neg (by simpa using hne)]
    dsimp only
    rw [splitByRangesLoop_ok hp ranges.length 0]

theorem claim_C6_witness :
    PDFSplitter.split_by_ranges 10 [] = ([], .error .emptyRangeList) ∧
    (PDFSplitter.split_by_ranges 0 ["all"]).2 =
      .ok (([[]] : List (List Int)).filter (fun l => !l.isEmpty)) :=
  ⟨claim_C6_split_by_ranges.1 10,
   claim_C6_split_by_ranges.2 0 ["all"] [[]] (by decide) rfl⟩

/-! ## Claims about the merge plan and its progress events (C2, C4) -/

/-- If the validation loop completes, its events carry currents
`i+1, …, i+len` and total `n`. -/
theorem validateLoop_events {n : Nat} {sources : List MergeSource} (i : Nat)
    (h : (validateLoop n sources i).2 = .ok ()) :
    (validateLoop n sources i).1.map ProgressEvent.current =
      List.range' (i + 1) sources.length ∧
    ∀ e ∈ (validateLoop n sources i).1, e.total = n := by
  induction sources generalizing i with
  | nil => exact ⟨rfl, by intro e he; cases he⟩
  | cons src rest ih =>
    simp only [validateLoop] at h ⊢
    by_cases h0 : src.numPages = 0
    · rw [if_pos h0] at h
      cases h
    · rw [if_neg h0] at h ⊢
      dsimp only at h ⊢
      obtain ⟨hc, ht⟩ := ih (i + 1) h
      refine ⟨?_, ?_⟩
      · simp only [List.map_cons, hc, List.length_cons, List.range'_succ]
      · intro e he
        rcases List.mem_cons.mp he with rfl | he2
        · rfl
        · exact ht e he2

/-- If the merge loop completes, its events carry currents `i+1, …, i+len`
and total `n`. -/
theorem mergeLoop_events {n : Nat} {sources : List MergeSource} (i total : Nat)
    {pr : List (String × Nat) × Nat}
    (h : (mergeLoop n sources i total).2 = .ok pr) :
    (mergeLoop n sources i total).1.map ProgressEvent.current =
      List.range' (i + 1) sources.length ∧
    ∀ e ∈ (mergeLoop n sources i total).1, e.total = n := by
  induction sources generalizing i total pr with
  | nil => exact ⟨rfl, by intro e he; cases he⟩
  | cons src rest ih =>
    simp only [mergeLoop] at h ⊢
    cases hr : resolvePages src with
    | error e => rw [hr] at h; cases h
    | ok pages =>
      rw [hr] at h
      dsimp only at h ⊢
      cases ha : addPages src.numPages pages with
      | none => rw [ha] at h; cases h
      | some qs =>
        rw [ha] at h
        dsimp only at h ⊢
        cases hm : (mergeLoop n rest (i + 1) (total + pages.length)).2 with
        | error e => rw [hm] at h; cases h
        | ok pr2 =>
          obtain ⟨hc, ht⟩ := ih (i + 1) (total + pages.length) hm
          refine ⟨?_, ?_⟩
          · simp only [List.map_cons, hc, List.length_cons, List.range'_succ]
          · intro e he
            rcases List.mem_cons.mp he with rfl | he2
            · rfl
            · exact ht e he2

/-- C2 (amended): a merge that succeeds over `n` sources emits exactly
`2n + 4` events — a validation-start event `(0, n)`, one `(i+1, n)` event
per source validated, a merge-start event `(0, n)`, one `(i+1, n)` event
per source merged, then a writing event and a completion event both at
`(n, n)`.  `total` is the source count throughout; `current` resets to 0
between the two phases, so it is not strictly increasing overall. -/
theorem claim_C2_progress_events (sources : List MergeSource)
    (plan : List (String × Nat))
    (h : (PDFMerger.merge_pdfs sources).2 = .ok plan) :
    (PDFMerger.merge_pdfs sources).1.length = 2 * sources.length + 4 ∧
    (∀ e ∈ (PDFMerger.merge_pdfs sources).1, e.total = sources.length) ∧
    (PDFMerger.merge_pdfs sources).1.map ProgressEvent.current =
      ((0 :: List.range' 1 sources.length) ++
        0 :: List.range' 1 sources.length) ++
        [sources.length, sources.length] := by
  unfold PDFMerger.merge_pdfs at h ⊢
  by_cases h0 : sources.length = 0
  · rw [if_pos h0] at h
    cases h
  · rw [if_neg h0] at h ⊢
    by_cases h1 : sources.length < 2
    · rw [if_pos h1] at h
      cases h
    · rw [if_neg h1] at h ⊢
      dsimp only at h ⊢
      cases hv : (validateLoop sources.length sources 0).2 with
      | error e => rw [hv] at h; cases h
      | ok u =>
        cases u
        rw [hv] at h
        dsimp only at h ⊢
        cases hm : (mergeLoop sources.length sources 0 0).2 with
        | error e => rw [hm] at h; cases h
        | ok pr =>
          rw [hm] at h
          dsimp only at h ⊢
          obtain ⟨hvc, hvt⟩ := validateLoop_events 0 hv
          obtain ⟨hmc, hmt⟩ := mergeLoop_events 0 0 hm
          have hvl : (validateLoop sources.length sources 0).1.length =
              sources.length := by
            have := congrArg List.length hvc
            simpa [List.length_range'] using this
          have hml : (mergeLoop sources.length sources 0 0).1.length =
              sources.length := by
            have := congrArg List.length hmc
            simpa [List.length_range'] using this
          refine ⟨?_, ?_, ?_⟩
          · simp only [List.length_append, List.length_cons, List.length_nil, hvl, hml]
            omega
          · intro e he
            simp only [List.mem_append, List.mem_cons] at he
            rcases he with ((rfl | hev) | (rfl | hem)) | (rfl | (rfl | hfalse))
            · rfl
            · exact hvt e hev
            · rfl
            · exact hmt e hem
            · rfl
            · rfl
            · cases hfalse
          · simp only [List.map_append, List.map_cons, hvc, hmc, List.map_nil]

theorem claim_C2_witness :
    (PDFMerger.merge_pdfs [⟨"x.pdf", 2, none⟩, ⟨"y.pdf", 3, some "all"⟩]).1.length =
      2 * 2 + 4 ∧
    (∀ e ∈ (PDFMerger.merge_pdfs [⟨"x.pdf", 2, none⟩, ⟨"y.pdf", 3, some "all"⟩]).1,
      e.total = 2) ∧
    (PDFMerger.merge_pdfs [⟨"x.pdf", 2, none⟩, ⟨"y.pdf", 3, some "all"⟩]).1.map
        ProgressEvent.current =
      ((0 :: List.range' 1 2) ++ 0 :: List.range' 1 2) ++ [2, 2] :=
  claim_C2_progress_events [⟨"x.pdf", 2, none⟩, ⟨"y.pdf", 3, some "all"⟩]
    [("x.pdf", 0), ("x.pdf", 1), ("y.pdf", 0), ("y.pdf", 1), ("y.pdf", 2)] rfl

/-- C2 counterexample: merging 2 sources emits 8 events, not 3, and
`current` is not strictly increasing (it resets to 0 after validation). -/
theorem claim_C2_counterexample :
    (PDFMerger.merge_pdfs [⟨"a.pdf", 1, none⟩, ⟨"b.pdf", 1, none⟩]).1.length = 8 ∧
    (PDFMerger.merge_pdfs [⟨"a.pdf", 1, none⟩, ⟨"b.pdf", 1, none⟩]).1.map
        ProgressEvent.current = [0, 1, 2, 0, 1, 2, 2, 2] ∧
    ((PDFMerger.merge_pdfs [⟨"a.pdf", 1, none⟩, ⟨"b.pdf", 1, none⟩]).1.map
        ProgressEvent.current)[2]? = some 2 ∧
    ((PDFMerger.merge_pdfs [⟨"a.pdf", 1, none⟩, ⟨"b.pdf", 1, none⟩]).1.map
        ProgressEvent.current)[3]? = some 0 ∧
    ¬ (2 : Nat) < 0 :=
  ⟨rfl, rfl, rfl, rfl, by decide⟩

/-- Spec-side helper: the plan contribution of one merge source — its
resolved pages, in resolved order, paired with the source's name (with a
junk `[]` on a resolution failure; the claim using it assumes success). -/
def sourcePlan (src : MergeSource) : List (String × Nat) :=
  match resolvePages src with
  | .ok pages => pages.map (fun p => (src.name, p.toNat))
  | .error _ => []

/-- Spec-side helper: the source's range expression resolves successfully
and every resolved index lies within the source's own page count (the
claim's "valid range expressions"). -/
def resolvedInBounds (src : MergeSource) : Bool :=
  match resolvePages src with
  | .ok pages =>
    pages.all (fun p => decide (0 ≤ p) && decide (p < (src.numPages : Int)))
  | .error _ => false

/-- Page lookup succeeds verbatim on an in-bounds page list. -/
theorem addPages_of_bounds {numPages : Nat} {pages : List Int}
    (h : ∀ p ∈ pages, 0 ≤ p ∧ p < (numPages : Int)) :
    addPages numPages pages = some (pages.map Int.toNat) := by
  induction pages with
  | nil => rfl
  | cons p rest ih =>
    have hp := h p (List.mem_cons_self p rest)
    have hrest := ih (fun q hq => h q (List.mem_cons_of_mem p hq))
    simp only [addPages, pyIndex]
    rw [if_neg (by omega : ¬ p < 0), if_pos ⟨hp.1, hp.2⟩, hrest]
    rfl

/-- Sources with at least one page all pass validation. -/
theorem validateLoop_ok {n : Nat} {sources : List MergeSource}
    (h : ∀ src ∈ sources, 1 ≤ src.numPages) (i : Nat) :
    (validateLoop n sources i).2 = .ok () := by
  induction sources generalizing i with
  | nil => rfl
  | cons src rest ih =>
    have h1 : ¬ src.numPages = 0 := by
      have := h src (List.mem_cons_self src rest)
      omega
    simp only [validateLoop]
    rw [if_neg h1]
    exact ih (fun s hs => h s (List.mem_cons_of_mem src hs)) (i + 1)

/-- When every source resolves in bounds, the merge loop produces exactly
the concatenation of the per-source plans, in source order. -/
theorem mergeLoop_plan {n : Nat} {sources : List MergeSource}
    (h : ∀ src ∈ sources, resolvedInBounds src = true) (i total : Nat) :
    ∃ tot, (mergeLoop n sources i total).2 = .ok (sources.flatMap sourcePlan, tot) := by
  induction sources generalizing i total with
  | nil => exact ⟨total, rfl⟩
  | cons src rest ih =>
    have hsrc := h src (List.mem_cons_self src rest)
    unfold resolvedInBounds at hsrc
    cases hr : resolvePages src with
    | error e => rw [hr] at hsrc; cases hsrc
    | ok pages =>
      rw [hr] at hsrc
      have hbounds : ∀ p ∈ pages, 0 ≤ p ∧ p < (src.numPages : Int) := by
        intro p hp
        have h2 := List.all_eq_true.mp hsrc p hp
        simp only [Bool.and_eq_true, decide_eq_true_eq] at h2
        exact h2
      obtain ⟨tot, htot⟩ :=
        ih (fun s hs => h s (List.mem_cons_of_mem src hs)) (i + 1) (total + pages.length)
      refine ⟨tot, ?_⟩
      simp only [mergeLoop, hr, addPages_of_bounds hbounds]
      rw [htot]
      dsimp only
      have hplan : sourcePlan src = (pages.map Int.toNat).map (fun q => (src.name, q)) := by
        unfold sourcePlan
        rw [hr, List.map_map]
        rfl
      rw [List.flatMap_cons, hplan]

/-- C4: merging at least 2 sources, each non-empty and each with a
successfully resolving in-bounds range expression (`none` defaulting to all
of the source's pages), plans exactly the concatenation, in source order,
of each source's resolved page indices in ascending resolved order. -/
theorem claim_C4_merge_plan (sources : List MergeSource)
    (h2 : 2 ≤ sources.length)
    (hv : ∀ src ∈ sources, 1 ≤ src.numPages)
    (hr : ∀ src ∈ sources, resolvedInBounds src = true) :
    (PDFMerger.merge_pdfs sources).2 = .ok (sources.flatMap sourcePlan) := by
  unfold PDFMerger.merge_pdfs
  rw [if_neg (by omega), if_neg (by omega)]
  dsimp only
  rw [validateLoop_ok hv 0]
  dsimp only
  obtain ⟨tot, htot⟩ := mergeLoop_plan hr 0 0
  rw [htot]

/-- C4 witness: the specification's own example — source A with 3 pages and
`"all"`, source B with 2 pages and `"1"` — plans A's pages 0, 1, 2 followed
by B's page 0, a plan of length 4. -/
theorem claim_C4_witness :
    (PDFMerger.merge_pdfs [⟨"A.pdf", 3, some "all"⟩, ⟨"B.pdf", 2, some "1"⟩]).2 =
      .ok (([⟨"A.pdf", 3, some "all"⟩, ⟨"B.pdf", 2, some "1"⟩] :
        List MergeSource).flatMap sourcePlan) ∧
    (([⟨"A.pdf", 3, some "all"⟩, ⟨"B.pdf", 2, some "1"⟩] :
        List MergeSource).flatMap sourcePlan) =
      [("A.pdf", 0), ("A.pdf", 1), ("A.pdf", 2), ("B.pdf", 0)] :=
  ⟨claim_C4_merge_plan _ (by decide) (by decide) (by decide), rfl⟩
